import Mathlib

/-!
Verification of `MdXLogseqTODOSync` (src/MdXLogseqTODOSync/MdXLogseqTODOSync.py).

Shallow embedding: document text is `List Char`.  The program only ever builds
regular expressions from caller-supplied delimiter strings and uses them via
`re.findall` / `re.search` / `re.sub`; the embedding models delimiter patterns
as literal strings (the shipped defaults contain no regex metacharacters), so
`re.findall(d, t)` becomes counting non-overlapping literal occurrences and the
region pattern `start.*?end` (DOTALL, non-greedy) becomes an explicit
leftmost-shortest match between two literal delimiters.  `re.sub`'s treatment
of its string replacement argument is modelled faithfully: a replacement
containing a backslash is parsed as a template (escapes produce their
characters, `\g<0>` references the whole match, bad escapes and references to
nonexistent groups raise `re.error`), while a backslash-free replacement is
inserted byte-for-byte.  The two regexes whose
content the program treats as opaque — `must_match_regex` (used only through
`pattern.search`, i.e. as a Boolean test on a block's content) and
`sub_pattern` (used only through a per-line `re.sub`, i.e. as a line
transformer) — are carried as an abstract predicate and an abstract line
function; a compile failure of either is modelled by `Option.none`.
-/

/-- Convert a string literal to the `List Char` text representation. -/
def s2l (s : String) : List Char := s.data

/-- Python's whitespace set for `str.strip` / `str.rstrip` (ASCII part). -/
def pyIsSpace (c : Char) : Bool :=
  c = ' ' || c = '\t' || c = '\n' || c = '\r' || c = '\x0b' || c = '\x0c'

/-- Truthiness of Python `m.strip()`: the line contains a non-whitespace char. -/
def hasNonWs (t : List Char) : Bool := t.any (fun c => !(pyIsSpace c))

/-- Python `str.rstrip()`: drop trailing whitespace. -/
def rstrip (t : List Char) : List Char := (t.reverse.dropWhile pyIsSpace).reverse

/-- The characters `textwrap.dedent` counts as indentation (`[ \t]`). -/
def isIndentChar (c : Char) : Bool := c = ' ' || c = '\t'

/-- Python `text.split('\n')` (`"".split('\n') == [""]`). -/
def splitNL : List Char → List (List Char)
  | [] => [[]]
  | c :: ts =>
    if c = '\n' then [] :: splitNL ts
    else
      match splitNL ts with
      | [] => [[c]]
      | h :: t => (c :: h) :: t

/-- Python `"\n".join(lines)`. -/
def joinNL : List (List Char) → List Char
  | [] => []
  | [l] => l
  | l :: ls => l ++ '\n' :: joinNL ls

/-- Python `text.replace("\t", "    ")`. -/
def tabExpand (t : List Char) : List Char :=
  t.flatMap (fun c => if c = '\t' then s2l "    " else [c])

/-- The first-mismatch cut in `textwrap.dedent`'s margin loop
(`for i, (x, y) in enumerate(zip(margin, indent)): if x != y: margin = margin[:i]`). -/
def commonPre : List Char → List Char → List Char
  | x :: xs, y :: ys => if x = y then x :: commonPre xs ys else []
  | _, _ => []

/-- One step of `textwrap.dedent`'s margin fold over the collected indents. -/
def marginStep (acc : Option (List Char)) (indent : List Char) : Option (List Char) :=
  match acc with
  | none => some indent
  | some m =>
    if m.isPrefixOf indent then some m
    else if indent.isPrefixOf m then some indent
    else some (commonPre m indent)

/-- `textwrap.dedent` (CPython 3.11): whitespace-only lines are normalized to
empty lines; the longest common `[ \t]` prefix of the remaining non-empty lines
is computed and stripped from every line that starts with it. -/
def dedent (t : List Char) : List Char :=
  let lines := (splitNL t).map (fun l => if l ≠ [] ∧ l.all isIndentChar then [] else l)
  let indents := lines.filterMap
    (fun l => if l.any (fun c => !(isIndentChar c)) then some (l.takeWhile isIndentChar) else none)
  match indents.foldl marginStep none with
  | none => joinNL lines
  | some m =>
    if m = [] then joinNL lines
    else joinNL (lines.map (fun l => if m.isPrefixOf l then l.drop m.length else l))

/-- `p` occurs in `t` at position `i` (as a literal substring). -/
def occursAtB (p t : List Char) (i : Nat) : Bool := p.isPrefixOf (t.drop i)

/-- Position of the leftmost occurrence of `p` in `t`. -/
def firstOcc (p : List Char) : List Char → Option Nat
  | [] => if p.isPrefixOf ([] : List Char) then some 0 else none
  | c :: ts =>
    if p.isPrefixOf (c :: ts) then some 0
    else (firstOcc p ts).map (· + 1)

/-- Position of the rightmost occurrence of `p` in `t`. -/
def lastOcc (p : List Char) : List Char → Option Nat
  | [] => if p.isPrefixOf ([] : List Char) then some 0 else none
  | c :: ts =>
    match lastOcc p ts with
    | some j => some (j + 1)
    | none => if p.isPrefixOf (c :: ts) then some 0 else none

/-- Python `p in t` (substring test). -/
def containsSub (p t : List Char) : Bool := (firstOcc p t).isSome

/-- Worker for `countOcc`; `fuel` bounds the scan (the text length suffices,
since every step consumes at least one character of a nonempty pattern). -/
def countOccGo (p : List Char) : Nat → List Char → Nat
  | 0, _ => 0
  | _ + 1, [] => 0
  | fuel + 1, c :: ts =>
    if p.isPrefixOf (c :: ts) then 1 + countOccGo p fuel ((c :: ts).drop p.length)
    else countOccGo p fuel ts

/-- `len(re.findall(p, t))` for a literal pattern `p`: number of non-overlapping
left-to-right occurrences (the empty pattern matches at every gap, as in Python). -/
def countOcc (p t : List Char) : Nat :=
  if p.isEmpty then t.length + 1 else countOccGo p t.length t

/-- Leftmost-shortest match of the DOTALL pattern `S.*?E` in `t` for literal
delimiters: returns the match's start index and one-past-the-end index. -/
def findMatch (S E t : List Char) : Option (Nat × Nat) :=
  match firstOcc S t with
  | none => none
  | some i =>
    match firstOcc E (t.drop (i + S.length)) with
    | none => none
    | some j => some (i, i + S.length + j + E.length)

/-- One parsed element of a `re.sub` string replacement template: a literal
character, or a reference to group 0 (the whole match). -/
inductive ReplItem
  | ch (c : Char)
  | group0
deriving DecidableEq

/-- Octal digit test for replacement-template escapes (`[0-7]`). -/
def isOctDigit (c : Char) : Bool := '0' ≤ c && c ≤ '7'

/-- Numeric value of an octal digit. -/
def octVal (c : Char) : Nat := c.toNat - '0'.toNat

/-- Scan of a `\g<name>` body up to the closing `>` (Python's `getuntil`);
`none` when the `>` is missing. -/
def takeGroupName : List Char → Option (List Char × List Char)
  | [] => none
  | c :: rest =>
    if c = '>' then some ([], rest)
    else (takeGroupName rest).map (fun p => (c :: p.1, p.2))

/-- Parse of a `re.sub` string replacement template (CPython 3.11
`re._parser.parse_template`), specialized to a pattern with zero capture
groups — which `f"{start}.*?{end}"` is for metacharacter-free delimiters.
`none` models a `re.error` raise: a lone trailing backslash, a reference to a
nonexistent group (`\1`, `\g<1>`, `\g<name>`), a malformed `\g`, an
out-of-range octal escape, or `\` before an unrecognized ASCII letter.
Recognized escapes (`\a \b \f \n \r \t \v \\`, octal `\0oo` and `\ooo`)
produce their character, `\g<0>` inserts the whole match, and `\` before any
other character keeps both characters literally.  (Deprecated non-decimal
spellings of a group number, such as `\g<+0>`, are modelled as errors.)
`fuel` bounds the scan; the template length suffices, every step consuming at
least one character. -/
def parseTemplateGo : Nat → List Char → Option (List ReplItem)
  | 0, _ => none
  | _ + 1, [] => some []
  | fuel + 1, c0 :: rest0 =>
    if c0 = '\\' then
      match rest0 with
      | [] => none
      | 'g' :: rest1 =>
        match rest1 with
        | '<' :: rest2 =>
          match takeGroupName rest2 with
          | none => none
          | some (name, rest3) =>
            if name = [] then none
            else if name.all Char.isDigit then
              if name.all (fun c => c = '0') then
                (parseTemplateGo fuel rest3).map (fun items => .group0 :: items)
              else none
            else none
        | _ => none
      | c :: rest1 =>
        if c = '0' then
          match rest1 with
          | d1 :: rest2 =>
            if isOctDigit d1 then
              match rest2 with
              | d2 :: rest3 =>
                if isOctDigit d2 then
                  (parseTemplateGo fuel rest3).map
                    (fun items => .ch (Char.ofNat (8 * octVal d1 + octVal d2)) :: items)
                else
                  (parseTemplateGo fuel rest2).map
                    (fun items => .ch (Char.ofNat (octVal d1)) :: items)
              | [] =>
                (parseTemplateGo fuel rest2).map
                  (fun items => .ch (Char.ofNat (octVal d1)) :: items)
            else (parseTemplateGo fuel rest1).map (fun items => .ch (Char.ofNat 0) :: items)
          | [] => (parseTemplateGo fuel rest1).map (fun items => .ch (Char.ofNat 0) :: items)
        else if c.isDigit then
          match rest1 with
          | d :: rest2 =>
            if d.isDigit then
              if isOctDigit c && isOctDigit d then
                match rest2 with
                | e :: rest3 =>
                  if isOctDigit e then
                    if 64 * octVal c + 8 * octVal d + octVal e > 255 then none
                    else
                      (parseTemplateGo fuel rest3).map
                        (fun items =>
                          .ch (Char.ofNat (64 * octVal c + 8 * octVal d + octVal e)) :: items)
                  else none
                | [] => none
              else none
            else none
          | [] => none
        else if c = 'a' then
          (parseTemplateGo fuel rest1).map (fun items => .ch (Char.ofNat 7) :: items)
        else if c = 'b' then
          (parseTemplateGo fuel rest1).map (fun items => .ch (Char.ofNat 8) :: items)
        else if c = 'f' then
          (parseTemplateGo fuel rest1).map (fun items => .ch (Char.ofNat 12) :: items)
        else if c = 'n' then
          (parseTemplateGo fuel rest1).map (fun items => .ch '\n' :: items)
        else if c = 'r' then
          (parseTemplateGo fuel rest1).map (fun items => .ch (Char.ofNat 13) :: items)
        else if c = 't' then
          (parseTemplateGo fuel rest1).map (fun items => .ch '\t' :: items)
        else if c = 'v' then
          (parseTemplateGo fuel rest1).map (fun items => .ch (Char.ofNat 11) :: items)
        else if c = '\\' then
          (parseTemplateGo fuel rest1).map (fun items => .ch '\\' :: items)
        else if c.isAlpha then none
        else (parseTemplateGo fuel rest1).map (fun items => .ch '\\' :: .ch c :: items)
    else (parseTemplateGo fuel rest0).map (fun items => .ch c0 :: items)

/-- Parse of a replacement template, with adequate fuel. -/
def parseTemplate (rep : List Char) : Option (List ReplItem) :=
  parseTemplateGo (rep.length + 1) rep

/-- Expansion of a compiled replacement template at one match: `group0`
references insert the matched text (`expand_template`). -/
def expandTemplate (items : List ReplItem) (matched : List Char) : List Char :=
  items.flatMap (fun it => match it with | .ch c => [c] | .group0 => matched)

/-- `re.sub`'s treatment of a string replacement argument: used byte-for-byte
when it contains no backslash (it is never parsed then), otherwise parsed as a
template — `none` models the `re.error` raise. -/
def compileRepl (rep : List Char) : Option (List ReplItem) :=
  if rep.contains '\\' then parseTemplate rep
  else some (rep.map ReplItem.ch)

/-- Worker for `replaceAll`: replace each non-overlapping match with the
template expanded at that match, resuming the scan after the replaced span. -/
def replaceAllGo (S E : List Char) (items : List ReplItem) : Nat → List Char → List Char
  | 0, t => t
  | fuel + 1, t =>
    match findMatch S E t with
    | none => t
    | some (i, e) =>
      t.take i ++ expandTemplate items ((t.take e).drop i)
        ++ replaceAllGo S E items fuel (t.drop e)

/-- The match-replacement loop of `re.sub(f"{S}.*?{E}", rep, t, re.DOTALL)`
for literal delimiters, given the compiled replacement template. -/
def replaceAll (S E : List Char) (items : List ReplItem) (t : List Char) : List Char :=
  replaceAllGo S E items (t.length + 1) t

/-- Which file a delimiter-validation error refers to (`'input'` / `'output'`). -/
inductive Role
  | input
  | output
deriving DecidableEq

/-- The fatal conditions the program can raise before writing the destination.
`noBlocks` is the `assert page.blocks` at line 160, `noMatchingBlocks` the
`assert matching_blocks` at line 186, `noMatchedLines` the
`assert matched_lines` at line 76 of the source; `badReplEscape` is the
`re.error` raised by `re.sub` at line 262 while processing backslash escapes
or group references in the replacement string. -/
inductive Err
  | missingDelimiter (delim : List Char) (role : Role)
  | duplicateDelimiter (delim : List Char) (role : Role)
  | sourceNotFound
  | subPatternCompile
  | mustMatchCompile
  | noBlocks
  | noMatchingBlocks
  | noMatchedLines
  | badReplEscape
deriving DecidableEq

/-- One node of the parsed outline, as produced by the external
`LogseqMarkdownParser.parse_text` collaborator: raw bullet text, zero-based
nesting depth, and the attached property mapping. -/
structure Block where
  content : List Char
  indentation_level : Nat
  properties : List (List Char × List Char)
deriving DecidableEq

instance : Inhabited Block := ⟨⟨[], 0, []⟩⟩

/-- The constructor arguments of `MdXLogseqTODOSync.__init__` that the core
logic consumes.  `must_match_regex` is the compiled form of the caller's regex
(`none` = the pattern fails to compile, raised inside `process_input`);
`sub_pattern` is `None`, or a pair whose search pattern compiles to a per-line
substitution (`some none` = the pair's search pattern fails to compile, raised
inside `__init__`). -/
structure ConfigArgs where
  input_delim_start : List Char
  input_delim_end : List Char
  output_delim_start : List Char
  output_delim_end : List Char
  bulletpoint_max_level : Int
  must_match_regex : Option (List Char → Bool)
  sub_pattern : Option (Option (List Char → List Char))
  remove_block_properties : Bool
  keep_new_lines : Bool
  recursive : Bool

/-- The object state after `__init__`'s field assignments (lines 59-73). -/
structure Config where
  input_delim_start : List Char
  input_delim_end : List Char
  output_delim_start : List Char
  output_delim_end : List Char
  bulletpoint_max_level : Int
  must_match : Option (List Char → Bool)
  sub_pattern : Option (List Char → List Char)
  remove_block_properties : Bool
  keep_new_lines : Bool
  recursive : Bool

/-- The `"__START__"` sentinel (start of document). -/
def startSentinel : List Char := s2l "__START__"

/-- The `"__END__"` sentinel (end of document). -/
def endSentinel : List Char := s2l "__END__"

/-- `__init__`'s field assignments.  Line 73 of the source assigns
`self.recursive = True`, discarding the caller's `recursive` argument. -/
def mkConfig (a : ConfigArgs) : Config where
  input_delim_start := a.input_delim_start
  input_delim_end := a.input_delim_end
  output_delim_start := a.output_delim_start
  output_delim_end := a.output_delim_end
  bulletpoint_max_level := a.bulletpoint_max_level
  must_match := a.must_match_regex
  sub_pattern := match a.sub_pattern with | some (some f) => some f | _ => none
  remove_block_properties := a.remove_block_properties
  keep_new_lines := a.keep_new_lines
  recursive := true

/-- The end-delimiter half of `_validate_delimiters` (lines 110-115). -/
def validateEnd (content endD : List Char) (role : Role) : Except Err Unit :=
  let ec := countOcc endD content
  if ec = 0 ∧ endD ≠ endSentinel then .error (.missingDelimiter endD role)
  else if ec > 1 then .error (.duplicateDelimiter endD role)
  else .ok ()

/-- `_validate_delimiters(content, delims, file_type)` (lines 100-115):
the start pattern is checked only when it is not the `"__START__"` sentinel;
the end pattern tolerates zero matches only when it is `"__END__"`. -/
def validateDelimiters (content startD endD : List Char) (role : Role) : Except Err Unit :=
  if startD ≠ startSentinel then
    let sc := countOcc startD content
    if sc = 0 then .error (.missingDelimiter startD role)
    else if sc > 1 then .error (.duplicateDelimiter startD role)
    else validateEnd content endD role
  else validateEnd content endD role

/-- Modelled from the spec: the external parser's `block.del_property(k)` loop
(source lines 203-205 call into `LogseqMarkdownParser`, which is not part of
this repository).  The spec's data model (§3) keeps `properties` as a mapping
separate from `content` and §4.2 step 7 says removal "strips all entries from
its property mapping", so removal clears the mapping and leaves the content
view unchanged. -/
def delProperties (b : Block) : Block := { b with properties := [] }

/-- The `":LOGBOOK:"` marker. -/
def logbookMark : List Char := s2l ":LOGBOOK:"

/-- The `":END:"` marker. -/
def logbookEnd : List Char := s2l ":END:"

/-- `re.sub(":LOGBOOK:.*:END:", "", content, flags=re.MULTILINE|re.DOTALL)`:
the greedy `.*` spans from the leftmost `":LOGBOOK:"` (that has an `":END:"`
after it) to the rightmost `":END:"`; at most one such match exists. -/
def exciseLogbook (t : List Char) : List Char :=
  match firstOcc logbookMark t with
  | none => t
  | some i =>
    match lastOcc logbookEnd (t.drop (i + logbookMark.length)) with
    | none => t
    | some q => t.take i ++ t.drop (i + logbookMark.length + q + logbookEnd.length)

/-- The per-kept-block output of `process_input`'s second pass (lines 202-212):
optionally delete properties, then excise a `:LOGBOOK: ... :END:` span (and
`rstrip`) when both markers occur in the content. -/
def emitContent (cfg : Config) (b : Block) : List Char :=
  if cfg.remove_block_properties then
    let b1 := delProperties b
    if containsSub logbookMark b1.content && containsSub logbookEnd b1.content then
      rstrip (exciseLogbook b1.content)
    else b1.content
  else b.content

/-- The first pass of `process_input` (lines 162-184): one traversal tracking
`inside_section`, the current start-delimiter pattern (`none` models the
neutralized pattern the source builds after resolving the `"__START__"`
sentinel — a string guaranteed not to occur in the document) and the
`previous_indentation` cursor, which is lowered to every shallower block's
depth and set to each admitted block's depth. -/
def firstPassGo (f : List Char → Bool) (rec : Bool) (endD : List Char) :
    Option (List Char) → Bool → Nat → List Block → List Block
  | _, _, _, [] => []
  | startD, inside, prev, b :: bs =>
    let lvl := b.indentation_level
    let prev1 := if lvl < prev then lvl else prev
    if startD = some startSentinel then
      -- `__START__`: enter the section, neutralize the start delimiter, and
      -- fall through to the admission check for this same block.
      if f b.content || (rec && decide (lvl > prev1)) then
        b :: firstPassGo f rec endD none true lvl bs
      else firstPassGo f rec endD none true prev1 bs
    else if (match startD with | some sd => decide (countOcc sd b.content > 0) | none => false) then
      firstPassGo f rec endD startD true prev1 bs
    else if inside && !(endD = endSentinel : Bool) && decide (countOcc endD b.content > 0) then
      []
    else if inside && (f b.content || (rec && decide (lvl > prev1))) then
      b :: firstPassGo f rec endD startD inside lvl bs
    else firstPassGo f rec endD startD inside prev1 bs

/-- The second pass of `process_input` (lines 189-212): depth truncation over
the provisional blocks, with its own `previous_indentation` cursor. -/
def secondPassGo (cfg : Config) : Nat → List Block → List (List Char)
  | _, [] => []
  | prev, b :: bs =>
    let lvl := b.indentation_level
    let prev1 := if lvl < prev then lvl else prev
    if cfg.bulletpoint_max_level = -1 ∨ (lvl : Int) ≥ cfg.bulletpoint_max_level ∨
        (cfg.recursive = true ∧ lvl > prev1) then
      emitContent cfg b :: secondPassGo cfg lvl bs
    else secondPassGo cfg prev1 bs

/-- The raw text of the source document together with the block outline the
external parser produces from it. -/
structure InputDoc where
  raw : List Char
  blocks : List Block

/-- `process_input` (lines 117-214).  `inp = none` models a missing source file
(the `assert self.input_file.exists()` at line 140); parsing is the external
collaborator, so its result is part of `InputDoc`. -/
def processInput (cfg : Config) (inp : Option InputDoc) : Except Err (List (List Char)) :=
  match inp with
  | none => .error .sourceNotFound
  | some doc =>
    match validateDelimiters doc.raw cfg.input_delim_start cfg.input_delim_end .input with
    | .error e => .error e
    | .ok _ =>
      match cfg.must_match with
      | none => .error .mustMatchCompile
      | some f =>
        match doc.blocks with
        | [] => .error .noBlocks
        | b0 :: _ =>
          match firstPassGo f cfg.recursive cfg.input_delim_end
              (some cfg.input_delim_start) false b0.indentation_level doc.blocks with
          | [] => .error .noMatchingBlocks
          | m0 :: ms => .ok (secondPassGo cfg m0.indentation_level (m0 :: ms))

/-- The blank-line filter of `process_output` (line 254). -/
def filterKept (cfg : Config) (ml : List (List Char)) : List (List Char) :=
  ml.filter (fun m => cfg.keep_new_lines || hasNonWs m)

/-- The per-line substitution of `process_output` (lines 255-256). -/
def applySubsts (cfg : Config) (ls : List (List Char)) : List (List Char) :=
  match cfg.sub_pattern with
  | some f => ls.map f
  | none => ls

/-- The replacement body built at line 257: filter, substitute, join with
newlines, expand tabs to four spaces, dedent. -/
def bodyFn (cfg : Config) (ml : List (List Char)) : List Char :=
  dedent (tabExpand (joinNL (applySubsts cfg (filterKept cfg ml))))

/-- The full replacement block `start_delim \n body \n end_delim`
(lines 253-258). -/
def replacementFn (cfg : Config) (ml : List (List Char)) : List Char :=
  cfg.output_delim_start ++ ['\n'] ++ bodyFn cfg ml ++ ['\n'] ++ cfg.output_delim_end

/-- The splice step of `process_output` (lines 247-264): if a `start.*?end`
region exists, compile the replacement string as a `re.sub` template (which
can raise `re.error` on a bad escape or group reference) and replace every
region with its expansion; otherwise append (with a separating newline when
the existing content is non-empty). -/
def splice (cfg : Config) (content : List Char) (ml : List (List Char)) :
    Except Err (List Char) :=
  let rep := replacementFn cfg ml
  match findMatch cfg.output_delim_start cfg.output_delim_end content with
  | some _ =>
    match compileRepl rep with
    | none => .error .badReplEscape
    | some items =>
      .ok (replaceAll cfg.output_delim_start cfg.output_delim_end items content)
  | none => .ok (if content = [] then rep else content ++ ['\n'] ++ rep)

/-- `process_output` (lines 216-268) up to the final write: read the existing
destination (`none` = missing file, treated as empty), validate the output
delimiters only when the existing content is non-empty, and return the text
that is written back. -/
def processOutput (cfg : Config) (dest : Option (List Char)) (ml : List (List Char)) :
    Except Err (List Char) :=
  let content := dest.getD []
  if content = [] then splice cfg content ml
  else
    match validateDelimiters content cfg.output_delim_start cfg.output_delim_end .output with
    | .error e => .error e
    | .ok _ => splice cfg content ml

/-- One whole run of `MdXLogseqTODOSync.__init__`: compile `sub_pattern`,
build the object state, run `process_input`, assert the matched lines are
non-empty, and run `process_output`.  The second component is the list of
destination writes the run performs, in order; the single `f.write` at line
268 is the program's only write, and it is the final operation. -/
def run (a : ConfigArgs) (inp : Option InputDoc) (dest : Option (List Char)) :
    Except Err Unit × List (List Char) :=
  match a.sub_pattern with
  | some none => (.error .subPatternCompile, [])
  | _ =>
    match processInput (mkConfig a) inp with
    | .error e => (.error e, [])
    | .ok ml =>
      if ml = [] then (.error .noMatchedLines, [])
      else
        match processOutput (mkConfig a) dest ml with
        | .error e => (.error e, [])
        | .ok newText => (.ok (), [newText])

/-- The destination file's content after a run: each performed write replaces
the previous content. -/
def destAfter (a : ConfigArgs) (inp : Option InputDoc) (dest : Option (List Char)) :
    Option (List Char) :=
  (run a inp dest).2.foldl (fun _ w => some w) dest

/-- A configuration with sentinel input delimiters, literal output delimiters
`S` / `E`, and otherwise default-like options, used by the concrete instances. -/
def plainCfg : Config where
  input_delim_start := startSentinel
  input_delim_end := endSentinel
  output_delim_start := s2l "S"
  output_delim_end := s2l "E"
  bulletpoint_max_level := -1
  must_match := some (fun l => decide (l = s2l "- TODO p"))
  sub_pattern := none
  remove_block_properties := true
  keep_new_lines := true
  recursive := true

/-- `plainCfg` with `bulletpoint_max_level = 2`. -/
def plainCfgMax2 : Config := { plainCfg with bulletpoint_max_level := 2 }

/-- The depth-cascade outline of spec §8: blocks at depths `[0, 1, 2, 0]`,
only the depth-1 block matching `must_match_regex`. -/
def cascadeDoc : InputDoc :=
  ⟨s2l "outline",
    [⟨s2l "- a", 0, []⟩, ⟨s2l "- TODO p", 1, []⟩, ⟨s2l "- c", 2, []⟩, ⟨s2l "- d", 0, []⟩]⟩

/-- The provisional match set the extraction traversal produces when both
input delimiters are sentinels (the whole document is the region), exactly as
`process_input` invokes the traversal. -/
def matchingBlocksSentinel (f : List Char → Bool) (rec : Bool) (bs : List Block) : List Block :=
  match bs with
  | [] => []
  | b0 :: _ => firstPassGo f rec endSentinel (some startSentinel) false b0.indentation_level bs

/-- Claim C3 as stated, specialized to a must-match predicate and an outline:
the provisional set holds a block iff its content is a primary match, or it is
a descendant of an included block (strictly deeper than an included ancestor,
with every block in between also strictly deeper than that ancestor). -/
def recursiveInclusionClaimAt (f : List Char → Bool) (bs : List Block) : Prop :=
  ∀ k, k < bs.length →
    ((bs.getD k default) ∈ matchingBlocksSentinel f true bs ↔
      (f (bs.getD k default).content = true ∨
        ∃ j, j < k ∧ (bs.getD j default) ∈ matchingBlocksSentinel f true bs ∧
          ∀ m, m < k + 1 → j < m →
            (bs.getD j default).indentation_level < (bs.getD m default).indentation_level))

/-- The outline (depths `[0, 2, 1]`, only the first block primary) on which the
descendant characterization of claim C3 fails: the depth-1 third block is a
descendant of the included first block but is not admitted. -/
def c3Blocks : List Block :=
  [⟨s2l "- TODO p", 0, []⟩, ⟨s2l "- x", 2, []⟩, ⟨s2l "- y", 1, []⟩]

/-- Constructor arguments with a never-matching `must_match_regex` and the
caller explicitly passing `recursive := false`. -/
def noMatchArgs : ConfigArgs where
  input_delim_start := startSentinel
  input_delim_end := endSentinel
  output_delim_start := s2l "S"
  output_delim_end := s2l "E"
  bulletpoint_max_level := -1
  must_match_regex := some (fun _ => false)
  sub_pattern := none
  remove_block_properties := true
  keep_new_lines := true
  recursive := false

/-- An outline with never-increasing depths `[0, 0]` (no block can be admitted
when nothing matches `must_match_regex`). -/
def flatDoc : InputDoc := ⟨s2l "outline", [⟨s2l "- u", 0, []⟩, ⟨s2l "- v", 0, []⟩]⟩

/-- An outline at depths `[2, 0, 1]` with no primary match anywhere: the last
block is nevertheless admitted by the recursive cascade. -/
def dipDoc : InputDoc :=
  ⟨s2l "outline", [⟨s2l "- u", 2, []⟩, ⟨s2l "- v", 0, []⟩, ⟨s2l "- w", 1, []⟩]⟩

/-- A configuration whose `output_delim_end` is the literal sentinel string
`"__END__"` (and whose `output_delim_start` is the literal `B`). -/
def sentinelOutCfg : Config :=
  { plainCfg with output_delim_start := s2l "B", output_delim_end := endSentinel }

/-- Constructor arguments for the whitespace-only-match run: the must-match
regex matches a whitespace-only block line and `keep_new_lines` is false. -/
def blankArgs : ConfigArgs where
  input_delim_start := startSentinel
  input_delim_end := endSentinel
  output_delim_start := s2l "S"
  output_delim_end := s2l "E"
  bulletpoint_max_level := -1
  must_match_regex := some (fun l => decide (l = s2l "   "))
  sub_pattern := none
  remove_block_properties := true
  keep_new_lines := false
  recursive := true

/-- An outline whose single block is whitespace-only. -/
def blankDoc : InputDoc := ⟨s2l "outline", [⟨s2l "   ", 0, []⟩]⟩

deriving instance DecidableEq for Except

theorem occursAtB_eq_true_iff (p t : List Char) (i : Nat) :
    occursAtB p t i = true ↔ p <+: t.drop i := by
  simp [occursAtB, List.isPrefixOf_iff_prefix]

theorem occursAtB_append (l p r : List Char) : occursAtB p (l ++ (p ++ r)) l.length = true := by
  rw [occursAtB_eq_true_iff, List.drop_left]
  exact List.prefix_append p r

theorem occursAtB_append_right (l p : List Char) : occursAtB p (l ++ p) l.length = true := by
  rw [occursAtB_eq_true_iff, List.drop_left]

theorem occursAtB_lt_length {p t : List Char} {i : Nat} (h : occursAtB p t i = true)
    (hp : p ≠ []) : i < t.length := by
  rw [occursAtB_eq_true_iff] at h
  by_contra hle
  rw [not_lt] at hle
  have hnil : t.drop i = [] := List.drop_eq_nil_iff.mpr hle
  rw [hnil, List.prefix_nil] at h
  exact hp h

theorem occursAtB_drop (p t : List Char) (m j : Nat) :
    occursAtB p (t.drop m) j = occursAtB p t (m + j) := by
  unfold occursAtB
  rw [List.drop_drop]

theorem occursAtB_decomp {p t : List Char} {i : Nat} (h : occursAtB p t i = true) :
    t = t.take i ++ (p ++ t.drop (i + p.length)) := by
  rw [occursAtB_eq_true_iff] at h
  obtain ⟨u, hu⟩ := h
  have hu2 : t.drop (i + p.length) = u := by
    have hdd : (t.drop i).drop p.length = t.drop (i + p.length) := List.drop_drop p.length i t
    rw [← hdd, ← hu, List.drop_left]
  rw [hu2, hu, List.take_append_drop]

theorem occursAtB_of_pre {q p t : List Char} {i : Nat} (hq : q <+: p)
    (h : occursAtB p t i = true) : occursAtB q t i = true := by
  rw [occursAtB_eq_true_iff] at h ⊢
  exact hq.trans h

theorem occursAtB_inner {R p t : List Char} {k j : Nat} (hR : occursAtB R t k = true)
    (hp : occursAtB p R j = true) : occursAtB p t (k + j) = true := by
  rw [occursAtB_eq_true_iff] at hR hp ⊢
  obtain ⟨v, hv⟩ := hR
  rw [← List.drop_drop j k, ← hv, List.drop_append_eq_append_drop]
  exact hp.trans (List.prefix_append _ _)

theorem firstOcc_sound {p t : List Char} {i : Nat} (h : firstOcc p t = some i) :
    occursAtB p t i = true := by
  induction t generalizing i with
  | nil =>
    unfold firstOcc at h
    cases hp : p.isPrefixOf ([] : List Char) with
    | false => rw [hp] at h; simp at h
    | true =>
      rw [hp] at h
      simp only [if_true] at h
      cases h
      simpa [occursAtB] using hp
  | cons c ts ih =>
    unfold firstOcc at h
    cases hp : p.isPrefixOf (c :: ts) with
    | true =>
      rw [hp] at h
      simp only [if_true] at h
      cases h
      simpa [occursAtB] using hp
    | false =>
      rw [hp] at h
      simp only [Bool.false_eq_true, if_false] at h
      obtain ⟨j, hj, rfl⟩ := Option.map_eq_some'.mp h
      have hts := ih hj
      simpa [occursAtB, List.drop_succ_cons] using hts

theorem firstOcc_none {p t : List Char} (h : firstOcc p t = none) (j : Nat) :
    occursAtB p t j = false := by
  induction t generalizing j with
  | nil =>
    unfold firstOcc at h
    cases hp : p.isPrefixOf ([] : List Char) with
    | true => rw [hp] at h; simp at h
    | false => simpa [occursAtB, List.drop_nil] using hp
  | cons c ts ih =>
    unfold firstOcc at h
    cases hp : p.isPrefixOf (c :: ts) with
    | true => rw [hp] at h; simp at h
    | false =>
      rw [hp] at h
      simp only [Bool.false_eq_true, if_false, Option.map_eq_none'] at h
      cases j with
      | zero => simpa [occursAtB] using hp
      | succ j => simpa [occursAtB, List.drop_succ_cons] using ih h j

theorem firstOcc_unique {p t : List Char} {i : Nat} (hocc : occursAtB p t i = true)
    (hu : ∀ j, occursAtB p t j = true → j = i) : firstOcc p t = some i := by
  cases h : firstOcc p t with
  | none => rw [firstOcc_none h i] at hocc; cases hocc
  | some k =>
    have hk : k = i := hu k (firstOcc_sound h)
    rw [← hk]

theorem replaceAllGo_no_match {S E t : List Char} (items : List ReplItem)
    (h : findMatch S E t = none) (fuel : Nat) : replaceAllGo S E items fuel t = t := by
  cases fuel with
  | zero => rfl
  | succ n => simp [replaceAllGo, h]

theorem expandTemplate_map_ch (rep m : List Char) :
    expandTemplate (rep.map ReplItem.ch) m = rep := by
  induction rep with
  | nil => rfl
  | cons c cs ih =>
    show expandTemplate (ReplItem.ch c :: cs.map ReplItem.ch) m = c :: cs
    unfold expandTemplate
    rw [List.flatMap_cons]
    unfold expandTemplate at ih
    rw [ih]
    rfl

theorem compileRepl_of_no_backslash {rep : List Char} (hnb : rep.contains '\\' = false) :
    compileRepl rep = some (rep.map ReplItem.ch) := by
  unfold compileRepl
  rw [hnb]
  rfl

theorem splice_has_replacement (cfg : Config) (content : List Char) (ml : List (List Char))
    (d1 : List Char) (hnb : (replacementFn cfg ml).contains '\\' = false)
    (h : splice cfg content ml = .ok d1) :
    ∃ k, occursAtB (replacementFn cfg ml) d1 k = true := by
  unfold splice at h
  cases hm : findMatch cfg.output_delim_start cfg.output_delim_end content with
  | none =>
    rw [hm] at h
    simp only [Except.ok.injEq] at h
    by_cases hc : content = []
    · refine ⟨0, ?_⟩
      rw [← h, hc, if_pos rfl]
      rw [occursAtB_eq_true_iff, List.drop_zero]
    · refine ⟨(content ++ ['\n']).length, ?_⟩
      rw [← h, if_neg hc]
      exact occursAtB_append_right _ _
  | some ie =>
    obtain ⟨i, e⟩ := ie
    rw [hm] at h
    simp only [compileRepl_of_no_backslash hnb, Except.ok.injEq] at h
    refine ⟨(content.take i).length, ?_⟩
    rw [← h]
    unfold replaceAll
    simp only [replaceAllGo, hm]
    rw [expandTemplate_map_ch, List.append_assoc]
    exact occursAtB_append _ _ _

theorem splice_fixpoint (cfg : Config) (ml : List (List Char)) (d1 : List Char) (iS : Nat)
    (hnb : (replacementFn cfg ml).contains '\\' = false)
    (hSne : cfg.output_delim_start ≠ [])
    (hR : occursAtB (replacementFn cfg ml) d1 iS = true)
    (hSu : ∀ j j', occursAtB cfg.output_delim_start d1 j = true →
        occursAtB cfg.output_delim_start d1 j' = true → j = j')
    (hEu : ∀ j j', occursAtB cfg.output_delim_end d1 j = true →
        occursAtB cfg.output_delim_end d1 j' = true → j = j') :
    splice cfg d1 ml = .ok d1 := by
  have hSR : cfg.output_delim_start <+: replacementFn cfg ml := by
    unfold replacementFn
    rw [List.append_assoc, List.append_assoc, List.append_assoc]
    exact List.prefix_append _ _
  have hSocc : occursAtB cfg.output_delim_start d1 iS = true := occursAtB_of_pre hSR hR
  have hEinR : occursAtB cfg.output_delim_end (replacementFn cfg ml)
      (cfg.output_delim_start.length + (bodyFn cfg ml).length + 2) = true := by
    have h1 : replacementFn cfg ml =
        (cfg.output_delim_start ++ ['\n'] ++ bodyFn cfg ml ++ ['\n']) ++ cfg.output_delim_end :=
      rfl
    have h2 : (cfg.output_delim_start ++ ['\n'] ++ bodyFn cfg ml ++ ['\n']).length
        = cfg.output_delim_start.length + (bodyFn cfg ml).length + 2 := by
      simp [List.length_append]
      omega
    rw [h1, ← h2]
    exact occursAtB_append_right _ _
  have hEocc : occursAtB cfg.output_delim_end d1
      (iS + (cfg.output_delim_start.length + (bodyFn cfg ml).length + 2)) = true :=
    occursAtB_inner hR hEinR
  have hSlen : 0 < cfg.output_delim_start.length := List.length_pos.mpr hSne
  have hfS : firstOcc cfg.output_delim_start d1 = some iS :=
    firstOcc_unique hSocc (fun j hj => hSu j iS hj hSocc)
  have hfE : firstOcc cfg.output_delim_end (d1.drop (iS + cfg.output_delim_start.length))
      = some ((bodyFn cfg ml).length + 2) := by
    apply firstOcc_unique
    · rw [occursAtB_drop]
      have harith : iS + cfg.output_delim_start.length + ((bodyFn cfg ml).length + 2)
          = iS + (cfg.output_delim_start.length + (bodyFn cfg ml).length + 2) := by omega
      rw [harith]
      exact hEocc
    · intro j hj
      rw [occursAtB_drop] at hj
      have hjj := hEu _ _ hj hEocc
      omega
  have hfind : findMatch cfg.output_delim_start cfg.output_delim_end d1
      = some (iS, iS + cfg.output_delim_start.length + ((bodyFn cfg ml).length + 2)
          + cfg.output_delim_end.length) := by
    simp only [findMatch, hfS, hfE]
  have hRlen : (replacementFn cfg ml).length
      = cfg.output_delim_start.length + (bodyFn cfg ml).length + 2
        + cfg.output_delim_end.length := by
    simp [replacementFn, List.length_append]
    omega
  have htail : ∀ j, occursAtB cfg.output_delim_start
      (d1.drop (iS + cfg.output_delim_start.length + ((bodyFn cfg ml).length + 2)
        + cfg.output_delim_end.length)) j = false := by
    intro j
    by_contra hj
    rw [Bool.not_eq_false] at hj
    rw [occursAtB_drop] at hj
    have heq := hSu _ _ hj hSocc
    omega
  have hfS2 : firstOcc cfg.output_delim_start
      (d1.drop (iS + cfg.output_delim_start.length + ((bodyFn cfg ml).length + 2)
        + cfg.output_delim_end.length)) = none := by
    cases h : firstOcc cfg.output_delim_start
        (d1.drop (iS + cfg.output_delim_start.length + ((bodyFn cfg ml).length + 2)
          + cfg.output_delim_end.length)) with
    | none => rfl
    | some k =>
      have hk := firstOcc_sound h
      rw [htail k] at hk
      cases hk
  have hfind2 : findMatch cfg.output_delim_start cfg.output_delim_end
      (d1.drop (iS + cfg.output_delim_start.length + ((bodyFn cfg ml).length + 2)
        + cfg.output_delim_end.length)) = none := by
    simp only [findMatch, hfS2]
  have hdec := occursAtB_decomp hR
  have hee : iS + cfg.output_delim_start.length + ((bodyFn cfg ml).length + 2)
      + cfg.output_delim_end.length = iS + (replacementFn cfg ml).length := by
    rw [hRlen]; omega
  have hcr := compileRepl_of_no_backslash hnb
  have hpay : replaceAll cfg.output_delim_start cfg.output_delim_end
      ((replacementFn cfg ml).map ReplItem.ch) d1 = d1 := by
    unfold replaceAll
    simp only [replaceAllGo, hfind]
    rw [replaceAllGo_no_match _ hfind2, expandTemplate_map_ch, List.append_assoc, hee]
    exact hdec.symm
  unfold splice
  simp only [hfind, hcr, hpay]

theorem validate_start_ok (content startD endD : List Char) (role : Role)
    (hor : startD = startSentinel ∨ countOcc startD content = 1) :
    validateDelimiters content startD endD role = validateEnd content endD role := by
  by_cases hsent : startD = startSentinel
  · simp [validateDelimiters, hsent]
  · rcases hor with h | h
    · exact absurd h hsent
    · simp [validateDelimiters, hsent, h]

/-- C2: delimiter validation fails with a missing-delimiter error when the
start pattern is not `"__START__"` and matches zero times, with a duplicate
error when the non-sentinel start pattern matches more than once; once the
start check passes (sentinel or exactly one match), zero end matches are an
error only for a non-`"__END__"` pattern, more than one end match is always a
duplicate error (sentinel or not), and otherwise validation succeeds. -/
theorem c2_delimiter_validation (content startD endD : List Char) (role : Role) :
    (startD ≠ startSentinel → countOcc startD content = 0 →
      validateDelimiters content startD endD role = .error (.missingDelimiter startD role))
    ∧ (startD ≠ startSentinel → countOcc startD content > 1 →
      validateDelimiters content startD endD role = .error (.duplicateDelimiter startD role))
    ∧ ((startD = startSentinel ∨ countOcc startD content = 1) → countOcc endD content = 0 →
      endD ≠ endSentinel →
      validateDelimiters content startD endD role = .error (.missingDelimiter endD role))
    ∧ ((startD = startSentinel ∨ countOcc startD content = 1) → countOcc endD content > 1 →
      validateDelimiters content startD endD role = .error (.duplicateDelimiter endD role))
    ∧ ((startD = startSentinel ∨ countOcc startD content = 1) →
      (countOcc endD content = 1 ∨ (countOcc endD content = 0 ∧ endD = endSentinel)) →
      validateDelimiters content startD endD role = .ok ()) := by
  refine ⟨?_, ?_, ?_, ?_, ?_⟩
  · intro hs h0
    simp [validateDelimiters, hs, h0]
  · intro hs h1
    have hne : ¬ countOcc startD content = 0 := by omega
    simp [validateDelimiters, hs, hne, h1]
  · intro hor he0 hne
    rw [validate_start_ok content startD endD role hor]
    simp [validateEnd, he0, hne]
  · intro hor he1
    have hne : ¬ (countOcc endD content = 0 ∧ endD ≠ endSentinel) := by
      intro hcon
      omega
    rw [validate_start_ok content startD endD role hor]
    simp [validateEnd, hne, he1]
  · intro hor hend
    rw [validate_start_ok content startD endD role hor]
    rcases hend with h | ⟨h0, hsent⟩
    · simp [validateEnd, h]
    · subst hsent
      simp [validateEnd, h0]

/-- Witness for C2: a start pattern absent from the document is reported as a
missing input delimiter. -/
theorem c2_witness :
    validateDelimiters (s2l "xx") (s2l "a") (s2l "b") .input
      = .error (.missingDelimiter (s2l "a") .input) :=
  (c2_delimiter_validation (s2l "xx") (s2l "a") (s2l "b") .input).1 (by decide) (by decide)

theorem firstPassGo_step_inside (f : List Char → Bool) (rec : Bool) (prev : Nat)
    (b : Block) (bs : List Block) :
    firstPassGo f rec endSentinel none true prev (b :: bs) =
      if f b.content || (rec && decide (b.indentation_level >
          (if b.indentation_level < prev then b.indentation_level else prev))) then
        b :: firstPassGo f rec endSentinel none true b.indentation_level bs
      else firstPassGo f rec endSentinel none true
        (if b.indentation_level < prev then b.indentation_level else prev) bs := by
  simp [firstPassGo]

/-- C3 counterexample: on the outline at depths `[0, 2, 1]` whose first block
alone is a primary match, the third block is a descendant of the included
first block (`1 > 0`, and the block in between is also deeper than `0`), yet
the traversal does not admit it: after admitting the depth-2 block the
baseline rises to `2`, is lowered only to the third block's own depth `1`, and
`1 > 1` fails.  This refutes the claim's characterization. -/
theorem c3_counterexample :
    ¬ recursiveInclusionClaimAt (fun l => decide (l = s2l "- TODO p")) c3Blocks := by
  intro h
  have h2 := (h 2 (by decide)).mpr
  have hin : (c3Blocks.getD 2 default) ∈
      matchingBlocksSentinel (fun l => decide (l = s2l "- TODO p")) true c3Blocks := by
    apply h2
    refine Or.inr ⟨0, by decide, by decide, ?_⟩
    decide
  revert hin
  decide

/-- C3 amended: inside the region, (1) every block whose content satisfies
`must_match_regex` is admitted, and (2) with recursion enabled, a block
immediately following an admitted block and strictly deeper than it is
admitted, so chains of strictly increasing depth cascade in.  (The original
claim's stronger characterization — every descendant of an included block is
admitted and every admitted non-primary block sits below an included block —
fails, because the baseline is the depth of the most recent admission, lowered
by shallower scanned blocks, not the depth of an including ancestor.) -/
theorem c3_amended :
    (∀ (f : List Char → Bool) (rec : Bool) (prev : Nat) (bs : List Block) (b : Block),
        b ∈ bs → f b.content = true →
        b ∈ firstPassGo f rec endSentinel none true prev bs)
    ∧ (∀ (f : List Char → Bool) (prev : Nat) (b c : Block) (bs : List Block),
        f b.content = true ∨ prev < b.indentation_level →
        b.indentation_level < c.indentation_level →
        firstPassGo f true endSentinel none true prev (b :: c :: bs)
          = b :: c :: firstPassGo f true endSentinel none true c.indentation_level bs) := by
  constructor
  · intro f rec prev bs
    induction bs generalizing prev with
    | nil => intro b hb _; cases hb
    | cons hd tl ih =>
      intro b hb hf
      rw [firstPassGo_step_inside]
      rcases List.mem_cons.mp hb with rfl | hbtl
      · rw [if_pos (by rw [hf]; exact Bool.true_or _)]
        exact List.mem_cons_self _ _
      · by_cases hcond : (f hd.content || (rec && decide (hd.indentation_level >
            (if hd.indentation_level < prev then hd.indentation_level else prev)))) = true
        · rw [if_pos hcond]
          exact List.mem_cons_of_mem _ (ih _ b hbtl hf)
        · rw [if_neg hcond]
          exact ih _ b hbtl hf
  · intro f prev b c bs hb hc
    have hcondb : (f b.content || (true && decide (b.indentation_level >
        (if b.indentation_level < prev then b.indentation_level else prev)))) = true := by
      rcases hb with hf | hlt
      · rw [hf]; exact Bool.true_or _
      · have hpr : (if b.indentation_level < prev then b.indentation_level else prev) = prev :=
          if_neg (by omega)
        rw [hpr]
        simp [hlt]
    have hcondc : ((fun l => f l) c.content || (true && decide (c.indentation_level >
        (if c.indentation_level < b.indentation_level then c.indentation_level
          else b.indentation_level)))) = true := by
      have hpr : (if c.indentation_level < b.indentation_level then c.indentation_level
          else b.indentation_level) = b.indentation_level := if_neg (by omega)
      rw [hpr]
      simp [hc]
    rw [firstPassGo_step_inside, if_pos hcondb, firstPassGo_step_inside, if_pos hcondc]

/-- Witness for C3 amended: a primary block is admitted from a singleton
outline, and an admitted block's strictly deeper immediate successor is
admitted right after it. -/
theorem c3_witness :
    (⟨s2l "- TODO p", 1, []⟩ : Block) ∈ firstPassGo (fun l => decide (l = s2l "- TODO p")) true
        endSentinel none true 0 [⟨s2l "- TODO p", 1, []⟩]
    ∧ firstPassGo (fun l => decide (l = s2l "- TODO p")) true endSentinel none true 5
        [⟨s2l "- b", 6, []⟩, ⟨s2l "- c", 7, []⟩]
      = ⟨s2l "- b", 6, []⟩ :: ⟨s2l "- c", 7, []⟩ ::
          firstPassGo (fun l => decide (l = s2l "- TODO p")) true endSentinel none true 7 [] :=
  ⟨c3_amended.1 _ true 0 _ _ (by decide) (by decide),
   c3_amended.2 _ 5 _ _ [] (Or.inr (by decide)) (by decide)⟩

/-- C4: on the depth-cascade outline (`[0, 1, 2, 0]`, only the depth-1 block
matching) with recursion and unlimited depth, extraction returns exactly the
depth-1 block's content followed by the depth-2 block's content; both depth-0
blocks are excluded. -/
theorem c4_depth_cascade :
    processInput plainCfg (some cascadeDoc) = .ok [s2l "- TODO p", s2l "- c"] := by decide

/-- C5: the second pass keeps a provisional block iff `bulletpoint_max_level`
is `-1`, or the block's depth is at least the maximum, or recursion is on and
the block is strictly deeper than the pass's own cascading baseline (the
incoming baseline lowered to the block's depth when shallower); and on the
depth-cascade outline with `bulletpoint_max_level = 2` the depth-1 primary
match is dropped while its depth-2 child is retained. -/
theorem c5_depth_truncation :
    (∀ (cfg : Config) (prev : Nat) (b : Block) (bs : List Block),
      secondPassGo cfg prev (b :: bs) =
        if cfg.bulletpoint_max_level = -1 ∨
            (b.indentation_level : Int) ≥ cfg.bulletpoint_max_level ∨
            (cfg.recursive = true ∧ b.indentation_level > min prev b.indentation_level) then
          emitContent cfg b :: secondPassGo cfg b.indentation_level bs
        else secondPassGo cfg (min prev b.indentation_level) bs)
    ∧ processInput plainCfgMax2 (some cascadeDoc) = .ok [s2l "- c"] := by
  constructor
  · intro cfg prev b bs
    have hmin : (if b.indentation_level < prev then b.indentation_level else prev)
        = min prev b.indentation_level := by
      rcases Nat.lt_or_ge b.indentation_level prev with h | h
      · rw [if_pos h]; omega
      · rw [if_neg (by omega)]; omega
    simp only [secondPassGo]
    rw [hmin]
  · decide

/-- C9: `__init__` stores `recursive = True` no matter what the caller passed,
so extraction always applies the recursive-inclusion rule. -/
theorem c9_recursive_pinned : ∀ a : ConfigArgs, (mkConfig a).recursive = true := fun _ => rfl

/-- C10: a run whose extraction yields one whitespace-only line with
`keep_new_lines = false` raises no error — the non-empty check at line 76
precedes the blank-line filter at line 254 — and writes
`output_delim_start ++ "\n" ++ "\n" ++ output_delim_end`, an empty region
body, to the destination. -/
theorem c10_empty_body_write :
    run blankArgs (some blankDoc) none = (.ok (), [s2l "S\n\nE"]) := by decide

theorem run_cases (a : ConfigArgs) (inp : Option InputDoc) (dest : Option (List Char)) :
    (∃ w, run a inp dest = (.ok (), [w])) ∨ (∃ er, run a inp dest = (.error er, [])) := by
  unfold run
  rcases a.sub_pattern with _ | (_ | f) <;> dsimp only
  · rcases hpi : processInput (mkConfig a) inp with er | ml
    · exact Or.inr ⟨er, rfl⟩
    · dsimp only
      by_cases hml : ml = []
      · rw [if_pos hml]
        exact Or.inr ⟨.noMatchedLines, rfl⟩
      · rw [if_neg hml]
        rcases hpo : processOutput (mkConfig a) dest ml with er | w
        · exact Or.inr ⟨er, rfl⟩
        · exact Or.inl ⟨w, rfl⟩
  · exact Or.inr ⟨.subPatternCompile, rfl⟩
  · rcases hpi : processInput (mkConfig a) inp with er | ml
    · exact Or.inr ⟨er, rfl⟩
    · dsimp only
      by_cases hml : ml = []
      · rw [if_pos hml]
        exact Or.inr ⟨.noMatchedLines, rfl⟩
      · rw [if_neg hml]
        rcases hpo : processOutput (mkConfig a) dest ml with er | w
        · exact Or.inr ⟨er, rfl⟩
        · exact Or.inl ⟨w, rfl⟩

/-- C6 counterexample: the claim's instance — no block satisfies
`must_match_regex` and the caller passes `recursive = false`, so the run should
raise the no-matches error and not write — fails: `__init__` pins
`recursive = True`, the depth-`[2,0,1]` outline's last block is admitted by the
cascade (depth 1 > lowered baseline 0) with no primary match anywhere, and the
run succeeds and writes the destination. -/
theorem c6_counterexample :
    run noMatchArgs (some dipDoc) none = (.ok (), [s2l "S\n- w\nE"]) := by decide

/-- C6 amended: every erroring run performs no destination write and leaves
the destination content unchanged (the single write is the run's final
operation); and an outline with no primary match and no block admissible by
the recursive cascade (e.g. never-increasing depths) raises the
empty-provisional-set assertion with no write. -/
theorem c6_amended_atomicity :
    (∀ (a : ConfigArgs) (inp : Option InputDoc) (dest : Option (List Char)) (e : Err),
        (run a inp dest).1 = .error e →
        (run a inp dest).2 = [] ∧ destAfter a inp dest = dest)
    ∧ run noMatchArgs (some flatDoc) (some (s2l "x")) = (.error .noMatchingBlocks, []) := by
  constructor
  · intro a inp dest e h
    rcases run_cases a inp dest with ⟨w, hw⟩ | ⟨er, her⟩
    · rw [hw] at h
      cases h
    · rw [her]
      constructor
      · rfl
      · unfold destAfter
        rw [her]
        rfl
  · decide

/-- Witness for C6 amended: the erroring flat-outline run writes nothing and
leaves the prior destination content in place. -/
theorem c6_witness :
    (run noMatchArgs (some flatDoc) (some (s2l "x"))).2 = []
    ∧ destAfter noMatchArgs (some flatDoc) (some (s2l "x")) = some (s2l "x") :=
  c6_amended_atomicity.1 noMatchArgs (some flatDoc) (some (s2l "x")) .noMatchingBlocks (by decide)

/-- C7 counterexample: with `output_delim_end` configured as the literal string
`"__END__"`, a non-empty destination in which it matches zero times is
tolerated — the shared validator's sentinel exemption applies to the output
delimiters too — and the splice succeeds, where the claim demands a
missing-delimiter failure. -/
theorem c7_counterexample :
    processOutput sentinelOutCfg (some (s2l "B")) [s2l "- y"]
      = .ok (s2l "B\nB\n- y\n__END__") := by decide

/-- C7 amended: destination validation is skipped when the destination is
missing or empty (not an error); a non-empty destination is checked by the
same validator as the input, so the sentinel exemptions apply to the output
delimiters as well: a start equal to `"__START__"` is not checked, an end
equal to `"__END__"` tolerates zero matches, and otherwise each delimiter
must match exactly once, validation errors propagating unchanged.  When
validation passes (or is skipped), `process_output` returns whatever the
splice step produces — which can itself still raise while processing the
replacement template. -/
theorem c7_amended_output_validation (cfg : Config) (ml : List (List Char)) :
    processOutput cfg none ml = splice cfg [] ml
    ∧ processOutput cfg (some []) ml = splice cfg [] ml
    ∧ (∀ c, c ≠ [] →
        validateDelimiters c cfg.output_delim_start cfg.output_delim_end .output = .ok () →
        processOutput cfg (some c) ml = splice cfg c ml)
    ∧ (∀ c er, c ≠ [] →
        validateDelimiters c cfg.output_delim_start cfg.output_delim_end .output = .error er →
        processOutput cfg (some c) ml = .error er)
    ∧ (∀ c, c ≠ [] → cfg.output_delim_end = endSentinel →
        (cfg.output_delim_start = startSentinel ∨ countOcc cfg.output_delim_start c = 1) →
        countOcc cfg.output_delim_end c ≤ 1 →
        processOutput cfg (some c) ml = splice cfg c ml) := by
  refine ⟨?_, ?_, ?_, ?_, ?_⟩
  · simp [processOutput]
  · simp [processOutput]
  · intro c hc hval
    simp [processOutput, hc, hval]
  · intro c er hc hval
    simp [processOutput, hc, hval]
  · intro c hc hend hor hle
    have hval : validateDelimiters c cfg.output_delim_start cfg.output_delim_end .output
        = .ok () := by
      rw [validate_start_ok _ _ _ _ hor, hend]
      rw [hend] at hle
      have h1 : ¬(countOcc endSentinel c = 0 ∧ endSentinel ≠ endSentinel) := by simp
      have h2 : ¬(countOcc endSentinel c > 1) := by omega
      simp [validateEnd, h1, h2]
    simp [processOutput, hc, hval]

/-- Witness for C7 amended: the sentinel `output_delim_end` with zero matches
in a non-empty destination is tolerated and the splice result is returned. -/
theorem c7_witness :
    processOutput sentinelOutCfg (some (s2l "B")) [s2l "- y"]
      = splice sentinelOutCfg (s2l "B") [s2l "- y"] :=
  (c7_amended_output_validation sentinelOutCfg [s2l "- y"]).2.2.2.2 (s2l "B")
    (by decide) rfl (Or.inr (by decide)) (by decide)

/-- C8: when the destination contains no `start.*?end` region, splicing into
empty content yields exactly `start ++ "\n" ++ body ++ "\n" ++ end` — where
the body is the filtered, substituted, newline-joined, tab-expanded, dedented
lines — with no leading blank line, and splicing into non-empty content
appends a newline followed by that same replacement block. -/
theorem c8_round_trip (cfg : Config) (ml : List (List Char)) (content : List Char)
    (h : findMatch cfg.output_delim_start cfg.output_delim_end content = none) :
    (content = [] → splice cfg content ml
        = .ok (cfg.output_delim_start ++ ['\n']
          ++ dedent (tabExpand (joinNL (applySubsts cfg (filterKept cfg ml))))
          ++ ['\n'] ++ cfg.output_delim_end))
    ∧ (content ≠ [] → splice cfg content ml
        = .ok (content ++ ['\n'] ++ cfg.output_delim_start ++ ['\n']
          ++ dedent (tabExpand (joinNL (applySubsts cfg (filterKept cfg ml))))
          ++ ['\n'] ++ cfg.output_delim_end)) := by
  constructor
  · intro hc
    subst hc
    simp [splice, h, replacementFn, bodyFn, List.append_assoc]
  · intro hc
    simp [splice, h, hc, replacementFn, bodyFn, List.append_assoc]

/-- Witness for C8: appending to a region-free non-empty destination. -/
theorem c8_witness :
    splice plainCfg (s2l "zz") [s2l "- a"]
      = .ok (s2l "zz" ++ ['\n'] ++ plainCfg.output_delim_start ++ ['\n']
        ++ dedent (tabExpand (joinNL (applySubsts plainCfg (filterKept plainCfg [s2l "- a"]))))
        ++ ['\n'] ++ plainCfg.output_delim_end) :=
  (c8_round_trip plainCfg [s2l "- a"] (s2l "zz") (by decide)).2 (by decide)

/-- C1 counterexample: with output delimiters `S` / `E` and the single matched
line `"E"`, splicing into an empty destination writes `S\nE\nE`; running
`process_output` again on that already-synced destination with the same
matched lines does not reproduce the text — the body's `E` makes the end
delimiter ambiguous and validation aborts with a duplicate-delimiter error
(and the raw region-replacement on that text would yield `S\nE\nE\nE`). -/
theorem c1_counterexample :
    processOutput plainCfg none [s2l "E"] = .ok (s2l "S\nE\nE")
    ∧ processOutput plainCfg (some (s2l "S\nE\nE")) [s2l "E"]
      = .error (.duplicateDelimiter (s2l "E") .output) := by
  exact ⟨by decide, by decide⟩

/-- C1 amended: splicing is idempotent on well-delimited destinations when the
replacement block is escape-free: if the destination is the result of a
previous splice of the same matched lines, the replacement block contains no
backslash (so `re.sub` uses it byte-for-byte instead of processing escapes and
group references in it), and each output delimiter occurs at exactly one
position in the destination (the situation output validation is meant to
guarantee), then re-splicing reproduces the destination text exactly. -/
theorem c1_amended (cfg : Config) (d0 : List Char) (ml : List (List Char)) (d1 : List Char)
    (hd1 : splice cfg d0 ml = .ok d1)
    (hnb : (replacementFn cfg ml).contains '\\' = false)
    (hSne : cfg.output_delim_start ≠ [])
    (hSu : ∀ j j', occursAtB cfg.output_delim_start d1 j = true →
        occursAtB cfg.output_delim_start d1 j' = true → j = j')
    (hEu : ∀ j j', occursAtB cfg.output_delim_end d1 j = true →
        occursAtB cfg.output_delim_end d1 j' = true → j = j') :
    splice cfg d1 ml = .ok d1 := by
  obtain ⟨k, hk⟩ := splice_has_replacement cfg d0 ml d1 hnb hd1
  exact splice_fixpoint cfg ml d1 k hnb hSne hk hSu hEu

/-- Witness for C1 amended: re-splicing the already-synced destination
`S\na\nE` (backslash-free replacement, each delimiter occurring at exactly
one position) is a fixpoint. -/
theorem c1_witness : splice plainCfg (s2l "S\na\nE") [s2l "a"] = .ok (s2l "S\na\nE") := by
  have key : ∀ p : List Char, p ≠ [] →
      (∀ j, j < (s2l "S\na\nE").length → ∀ j', j' < (s2l "S\na\nE").length →
        occursAtB p (s2l "S\na\nE") j = true → occursAtB p (s2l "S\na\nE") j' = true → j = j') →
      ∀ j j', occursAtB p (s2l "S\na\nE") j = true →
        occursAtB p (s2l "S\na\nE") j' = true → j = j' := by
    intro p hp hbdd j j' hj hj'
    exact hbdd j (occursAtB_lt_length hj hp) j' (occursAtB_lt_length hj' hp) hj hj'
  exact c1_amended plainCfg [] [s2l "a"] (s2l "S\na\nE") (by decide) (by decide) (by decide)
    (key (s2l "S") (by decide) (by decide))
    (key (s2l "E") (by decide) (by decide))
